import Mathlib

/-!
Verification development for the bin-based density estimation core
(DensitySurveyEstimation).  The repository ships the driver script
`DensityEst-Illustration.py`, which imports the core functions
`GeneralizedBetaEst`, `GeneralizedBetaStats`, `TriangleEst`, `TriangleStats`,
`UniformEst`, `UniformStats` and `SynDensityStat` from the module
`DensityEst`; that module's file is not part of the sources at hand, so the
core is modelled here from the specification, and settled against that model.

Probabilities and bin edges are embedded as rational numbers; the real-valued
derived quantities (standard deviation, interquantile ranges) live in `ℝ`.
The numerical optimizer used by the generalized beta fit is an external
floating-point routine; it is represented by an explicit solver argument, and
the validation logic wrapped around it is modelled from the specification.
-/

namespace DensityEst

/-- Modelled from the spec: the classifier's verdict, the
"enum {GENERALIZED_BETA, TRIANGLE, UNIFORM, UNSUPPORTED}" of section 4.1. -/
inductive Classification where
  | GENERALIZED_BETA
  | TRIANGLE
  | UNIFORM
  | UNSUPPORTED
deriving DecidableEq, Repr

/-- Indices of the bins carrying strictly positive probability, starting the
count at `n`.  Helper for the scan described in section 4.1 ("Scans for the
set of bins with strictly positive probability"). -/
def posIdxAux : ℕ → List ℚ → List ℕ
  | _, [] => []
  | n, p :: t => if 0 < p then n :: posIdxAux (n + 1) t else posIdxAux (n + 1) t

/-- Indices of the bins with strictly positive probability. -/
def posIdx (probs : List ℚ) : List ℕ := posIdxAux 0 probs

/-- Whether a list of indices is a contiguous run (each element is the
predecessor plus one).  Helper for the classifier's contiguity test. -/
def contiguousB : List ℕ → Bool
  | [] => true
  | [_] => true
  | a :: b :: t => (b == a + 1) && contiguousB (b :: t)

/-- Whether all probabilities at the given indices agree with the first one,
within the explicit tolerance `eps` (the spec demands a tolerance parameter
for the uniform-case equality check). -/
def allEqualAt (probs : List ℚ) (idxs : List ℕ) (eps : ℚ) : Bool :=
  match idxs with
  | [] => true
  | i :: t => t.all (fun j => |probs.getD j 0 - probs.getD i 0| ≤ eps)

/-- The tolerance used for the "equal probabilities" check of the uniform
case. -/
def probTol : ℚ := 1 / 1000000000

/-- Modelled from the spec: the Bin Classifier of section 4.1 (part of the
absent `DensityEst` module).  Rules, in the spec's order: nonadjacent positive
bins are UNSUPPORTED; a single positive bin at either extreme edge is
UNSUPPORTED; three or more positive bins, or exactly two of which one touches
an open-ended (extreme) bin, are GENERALIZED_BETA; exactly two adjacent closed
positive bins are TRIANGLE; one or more adjacent equal-probability bins are
UNIFORM; anything else is UNSUPPORTED. -/
def classify (edges probs : List ℚ) : Classification :=
  if (posIdx probs).isEmpty then .UNSUPPORTED
  else if ¬ contiguousB (posIdx probs) then .UNSUPPORTED
  else if (posIdx probs).length = 1 ∧
      ((posIdx probs).getD 0 0 = 0 ∨ (posIdx probs).getD 0 0 = probs.length - 1) then
    .UNSUPPORTED
  else if 3 ≤ (posIdx probs).length ∨
      ((posIdx probs).length = 2 ∧
        (0 ∈ posIdx probs ∨ probs.length - 1 ∈ posIdx probs)) then
    .GENERALIZED_BETA
  else if (posIdx probs).length = 2 then .TRIANGLE
  else if allEqualAt probs (posIdx probs) probTol then .UNIFORM
  else .UNSUPPORTED

/-- The uniform fit: a support interval, spec's `Uniform{lb, ub}` variant. -/
structure UniformFit where
  lb : ℚ
  ub : ℚ
deriving DecidableEq, Repr

/-- The triangular fit, spec's `Triangle{lb, ub, mode}` variant. -/
structure TriangleFit where
  lb : ℚ
  ub : ℚ
  mode : ℚ
deriving DecidableEq, Repr

/-- Modelled from the spec: the Uniform Estimator of section 4.4 (part of the
absent `DensityEst` module).  "lb = first edge of the contiguous
equal-probability run, ub = last edge of that run.  No further parameter
solving needed"; "trivial, cannot fail except on empty input". -/
def UniformEst (edges probs : List ℚ) : Option UniformFit :=
  match posIdx probs with
  | [] => none
  | i :: rest =>
      some { lb := edges.getD i 0,
             ub := edges.getD (((i :: rest).getLast?.getD 0) + 1) 0 }

/-- The closed-form CDF of the triangular distribution with support
`[lb, ub]` and the given mode, evaluated at `x` (used at interior points of
the support). -/
def triCDF (lb ub mode x : ℚ) : ℚ :=
  if x ≤ mode then (x - lb) ^ 2 / ((ub - lb) * (mode - lb))
  else 1 - (ub - x) ^ 2 / ((ub - lb) * (ub - mode))

/-- Modelled from the spec: the algebraic mode solve of the Triangle
Estimator, section 4.3 (part of the absent `DensityEst` module).  The mode is
solved from the constraint that the triangular CDF at the interior edge `m`
equals the normalized first-bin mass `q`, using the closed-form CDF split at
the mode; it "fails (empty) if the solved mode falls outside [lb, ub]". -/
def triSolveMode (a m b q : ℚ) : ℚ :=
  if q ≤ (m - a) / (b - a) then a + (m - a) ^ 2 / (q * (b - a))
  else b - (b - m) ^ 2 / ((1 - q) * (b - a))

/-- The guarded mode solve: the candidate mode from `triSolveMode`, accepted
only when it lies inside the support `[a, b]` ("fails (empty) if the solved
mode falls outside [lb, ub]"). -/
def triSolve (a m b q : ℚ) : Option ℚ :=
  if a ≤ triSolveMode a m b q ∧ triSolveMode a m b q ≤ b then
    some (triSolveMode a m b q)
  else none

/-- Modelled from the spec: the Triangle Estimator of section 4.3 (part of
the absent `DensityEst` module).  Applies to exactly two adjacent positive
bins with edge points `[a, m, b]` and masses `p1, p2`; lower bound `a`, upper
bound `b`, and the mode solved from `CDF(m) = p1/(p1+p2)`; fails (empty) when
`p1 + p2` is zero or the solved mode falls outside the support. -/
def TriangleEst (edges probs : List ℚ) : Option TriangleFit :=
  match posIdx probs with
  | [i, j] =>
      if j = i + 1 then
        let a := edges.getD i 0
        let m := edges.getD j 0
        let b := edges.getD (j + 1) 0
        let p1 := probs.getD i 0
        let p2 := probs.getD j 0
        if p1 + p2 = 0 then none
        else (triSolve a m b (p1 / (p1 + p2))).map (fun mo => ⟨a, b, mo⟩)
      else none
  | _ => none

/-- Outcome of the external nonlinear least-squares / root-finding routine
used by the generalized beta fit: either the four raw parameters
`(shape1, shape2, loc, scale)` it converged to, or `none` when it failed to
reduce the residual below tolerance within its iteration budget. -/
abbrev SolverOutcome : Type := Option (ℚ × ℚ × ℚ × ℚ)

/-- A solver configuration: for each input it yields the numerical routine's
outcome.  The orchestrator and the generalized beta estimator are pure
functions of their input plus this configuration. -/
abbrev BetaSolver : Type := List ℚ → List ℚ → SolverOutcome

/-- Modelled from the spec: the Generalized Beta Estimator of section 4.2
(part of the absent `DensityEst` module).  The numerical solve itself is the
external routine `solver`; the estimator validates its outcome: "Convergence
failure (optimizer does not reduce residual below tolerance, or produces
invalid — non-positive — shape/scale parameters) yields an empty result (no
fit)"; "Output: array/tuple of four parameters, or empty when unfit." -/
def GeneralizedBetaEst (solver : BetaSolver) (edges probs : List ℚ) : List ℚ :=
  match solver edges probs with
  | none => []
  | some (a, b, loc, scale) =>
      if 0 < a ∧ 0 < b ∧ 0 < scale then [a, b, loc, scale] else []

/-- Modelled from the spec: the `SummaryStatistics` record of section 3 —
"{mean, variance, std, iqr (for a configurable lower/upper percentile pair,
default 10/90)}".  The mean and variance have closed rational forms for every
family; the standard deviation and the interquantile range are real-valued. -/
structure SummaryStatistics where
  mean : ℚ
  variance : ℚ
  std : ℝ
  iqr1090 : ℝ

/-- Modelled from the spec: the Statistics Module for the uniform family,
section 4.5 — "mean = (lb+ub)/2; variance = (ub−lb)²/12; iqr closed-form
linear interpolation between lb and ub at the two percentiles". -/
noncomputable def UniformStats (lb ub : ℚ) : SummaryStatistics :=
  { mean := (lb + ub) / 2
    variance := (ub - lb) ^ 2 / 12
    std := Real.sqrt (((ub - lb) ^ 2 / 12 : ℚ) : ℝ)
    iqr1090 := (((9 / 10 - 1 / 10) * (ub - lb) : ℚ) : ℝ) }

/-- The piecewise quantile function of the triangular distribution with
support `[lb, ub]` and the given mode, at percentile `p`. -/
noncomputable def triQuantile (lb ub mode : ℚ) (p : ℚ) : ℝ :=
  if p ≤ (mode - lb) / (ub - lb) then
    (lb : ℝ) + Real.sqrt (((p * (ub - lb) * (mode - lb) : ℚ) : ℝ))
  else
    (ub : ℝ) - Real.sqrt ((((1 - p) * (ub - lb) * (ub - mode) : ℚ) : ℝ))

/-- Modelled from the spec: the Statistics Module for the triangular family,
section 4.5 — "closed-form triangular mean/variance formulas in terms of lb,
ub, mode; iqr via the piecewise triangular quantile function". -/
noncomputable def TriangleStats (lb ub mode : ℚ) : SummaryStatistics :=
  { mean := (lb + ub + mode) / 3
    variance := (lb ^ 2 + ub ^ 2 + mode ^ 2 - lb * ub - lb * mode - ub * mode) / 18
    std := Real.sqrt
      (((lb ^ 2 + ub ^ 2 + mode ^ 2 - lb * ub - lb * mode - ub * mode) / 18 : ℚ) : ℝ)
    iqr1090 := triQuantile lb ub mode (9 / 10) - triQuantile lb ub mode (1 / 10) }

/-- The cumulative distribution function of the standard beta distribution
with shapes `a, b`, as the normalized incomplete beta integral. -/
noncomputable def betaCDF (a b : ℚ) (x : ℝ) : ℝ :=
  (∫ t in (0 : ℝ)..x, t ^ ((a : ℝ) - 1) * (1 - t) ^ ((b : ℝ) - 1)) /
    (∫ t in (0 : ℝ)..(1 : ℝ), t ^ ((a : ℝ) - 1) * (1 - t) ^ ((b : ℝ) - 1))

/-- The quantile (inverse CDF) of the standard beta distribution, obtained by
inverting `betaCDF` at percentile `p`. -/
noncomputable def betaQuantile (a b : ℚ) (p : ℚ) : ℝ :=
  sInf {x : ℝ | (p : ℝ) ≤ betaCDF a b x}

/-- Modelled from the spec: the Statistics Module for the generalized beta
family, section 4.5 — "mean/variance computed from the analytic
beta-distribution moment formulas transformed by loc/scale; std =
sqrt(variance); iqr(p_lo, p_hi) computed by inverting the beta CDF (quantile
function) at p_lo and p_hi and taking the difference, transformed to the
loc/scale space". -/
noncomputable def GeneralizedBetaStats (a b loc scale : ℚ) : SummaryStatistics :=
  { mean := loc + scale * (a / (a + b))
    variance := scale ^ 2 * (a * b / ((a + b) ^ 2 * (a + b + 1)))
    std := Real.sqrt ((scale ^ 2 * (a * b / ((a + b) ^ 2 * (a + b + 1))) : ℚ) : ℝ)
    iqr1090 := (scale : ℝ) * (betaQuantile a b (9 / 10) - betaQuantile a b (1 / 10)) }

/-- Modelled from the spec: the Density Stat Orchestrator of section 4.6
(part of the absent `DensityEst` module).  "invoke Bin Classifier; dispatch
to the matching Estimator; if estimation yields a valid FittedDistribution,
invoke Statistics Module and return SummaryStatistics; if classification is
UNSUPPORTED or the estimator fails to converge, return an explicit 'no
estimate' signal". -/
noncomputable def SynDensityStat (solver : BetaSolver) (edges probs : List ℚ) :
    Option SummaryStatistics :=
  match classify edges probs with
  | .UNSUPPORTED => none
  | .UNIFORM => (UniformEst edges probs).map (fun u => UniformStats u.lb u.ub)
  | .TRIANGLE => (TriangleEst edges probs).map (fun t => TriangleStats t.lb t.ub t.mode)
  | .GENERALIZED_BETA =>
      match GeneralizedBetaEst solver edges probs with
      | [a, b, loc, scale] => some (GeneralizedBetaStats a b loc scale)
      | _ => none

/-- The per-observation estimation loop of the driver script
(`DensityEst-Illustration.py`, the loop over `range(nobs)`): each observation
is estimated by its own call of `SynDensityStat` on the shared bin edges. -/
noncomputable def runBatch (solver : BetaSolver) (edges : List ℚ)
    (observations : List (List ℚ)) : List (Option SummaryStatistics) :=
  observations.map (fun probs => SynDensityStat solver edges probs)

/-! ### Concrete inputs from the driver script's tests -/

/-- The bin edges `[0, 0.2, 0.32, 0.5, 1, 1.2]` of tests 2-5 of the driver
script. -/
def edgesA : List ℚ := [0, 1/5, 8/25, 1/2, 1, 6/5]

/-- The bin edges `[0, 0.2, 0.32, 0.5, 1.6, 2]` of test 1 of the driver
script. -/
def edgesBeta : List ℚ := [0, 1/5, 8/25, 1/2, 8/5, 2]

/-- The probabilities `[0, 0.2, 0.3, 0.3, 0.2]` of test 1 (generalized beta
case). -/
def probsBeta : List ℚ := [0, 1/5, 3/10, 3/10, 1/5]

/-- The probabilities `[0, 0.2, 0.8, 0, 0]` of test 2 (triangle case). -/
def probsTriangle : List ℚ := [0, 1/5, 4/5, 0, 0]

/-- The probabilities `[0, 0, 1, 0, 0]` of test 3 (uniform case, one
interval). -/
def probsUniform1 : List ℚ := [0, 0, 1, 0, 0]

/-- The probabilities `[0, 0.5, 0, 0.5, 0]` of test 5 (nonadjacent positive
bins, excluded from estimation). -/
def probsNonadjacent : List ℚ := [0, 1/2, 0, 1/2, 0]

/-- A two-adjacent-bin probability vector `[0, 0.01, 0.99, 0, 0]` with an
extreme mass ratio. -/
def probsTriExtreme : List ℚ := [0, 1/100, 99/100, 0, 0]

/-! ### Helper lemmas -/

theorem mem_posIdxAux (l : List ℚ) : ∀ (n j : ℕ),
    j ∈ posIdxAux n l ↔ ∃ m, j = n + m ∧ m < l.length ∧ 0 < l.getD m 0 := by
  induction l with
  | nil => intro n j; simp [posIdxAux]
  | cons p t ih =>
      intro n j
      simp only [posIdxAux]
      by_cases hp : 0 < p
      · simp only [if_pos hp, List.mem_cons, ih (n + 1) j]
        constructor
        · rintro (rfl | ⟨m, rfl, hm, hpos⟩)
          · exact ⟨0, by omega, by simp, by simpa using hp⟩
          · exact ⟨m + 1, by omega, by simpa using hm, by simpa using hpos⟩
        · rintro ⟨m, rfl, hm, hpos⟩
          cases m with
          | zero => left; omega
          | succ m' =>
              right
              exact ⟨m', by omega, by simpa using hm, by simpa using hpos⟩
      · simp only [if_neg hp, ih (n + 1) j]
        constructor
        · rintro ⟨m, rfl, hm, hpos⟩
          exact ⟨m + 1, by omega, by simpa using hm, by simpa using hpos⟩
        · rintro ⟨m, rfl, hm, hpos⟩
          cases m with
          | zero => exact absurd (by simpa using hpos) hp
          | succ m' =>
              exact ⟨m', by omega, by simpa using hm, by simpa using hpos⟩

theorem mem_posIdx (probs : List ℚ) (j : ℕ) :
    j ∈ posIdx probs ↔ j < probs.length ∧ 0 < probs.getD j 0 := by
  unfold posIdx
  rw [mem_posIdxAux]
  constructor
  · rintro ⟨m, rfl, hm, h⟩
    rw [Nat.zero_add]
    exact ⟨hm, h⟩
  · rintro ⟨h1, h2⟩
    exact ⟨j, by omega, h1, h2⟩

theorem contiguous_head_le (t : List ℕ) : ∀ (x : ℕ),
    contiguousB (x :: t) = true → ∀ y ∈ x :: t, x ≤ y := by
  induction t with
  | nil =>
      intro x _ y hy
      simp only [List.mem_singleton] at hy
      omega
  | cons b t' ih =>
      intro x h y hy
      simp only [contiguousB, Bool.and_eq_true, beq_iff_eq] at h
      obtain ⟨hb, hrest⟩ := h
      rcases List.mem_cons.mp hy with rfl | hy'
      · exact le_refl _
      · have := ih b hrest y hy'
        omega

theorem contiguous_between (l : List ℕ) (h : contiguousB l = true) :
    ∀ i k j, i ∈ l → k ∈ l → i ≤ j → j ≤ k → j ∈ l := by
  induction l with
  | nil => simp
  | cons a t ih =>
      intro i k j hi hk hij hjk
      cases t with
      | nil =>
          simp only [List.mem_singleton] at hi hk ⊢
          omega
      | cons b t' =>
          simp only [contiguousB, Bool.and_eq_true, beq_iff_eq] at h
          obtain ⟨hb, hrest⟩ := h
          rcases List.mem_cons.mp hi with rfl | hi'
          · rcases Nat.eq_or_lt_of_le hij with rfl | hlt
            · exact List.mem_cons_self _ _
            · rcases List.mem_cons.mp hk with rfl | hk'
              · omega
              · refine List.mem_cons_of_mem _ (ih hrest b k j ?_ hk' ?_ hjk)
                · exact List.mem_cons_self _ _
                · omega
          · rcases List.mem_cons.mp hk with rfl | hk'
            · have := contiguous_head_le t' b hrest i hi'
              omega
            · exact List.mem_cons_of_mem _ (ih hrest i k j hi' hk' hij hjk)

theorem range'_getLast? (k : ℕ) : ∀ (i : ℕ),
    (List.range' i (k + 1)).getLast? = some (i + k) := by
  induction k with
  | zero => intro i; simp [List.range']
  | succ k' ih =>
      intro i
      have h1 : List.range' i (k' + 1 + 1) = i :: List.range' (i + 1) (k' + 1) :=
        List.range'_succ _ _ _
      have h2 : List.range' (i + 1) (k' + 1) = (i + 1) :: List.range' (i + 2) k' :=
        List.range'_succ _ _ _
      rw [h1, h2, List.getLast?_cons_cons, ← h2, ih (i + 1)]
      congr 1
      omega

theorem UniformEst_of_posIdx (edges probs : List ℚ) (i : ℕ) (rest : List ℕ)
    (h : posIdx probs = i :: rest) :
    UniformEst edges probs =
      some ⟨edges.getD i 0, edges.getD (((i :: rest).getLast?.getD 0) + 1) 0⟩ := by
  unfold UniformEst
  rw [h]

theorem SynDensityStat_of_unsupported (solver : BetaSolver) (edges probs : List ℚ)
    (h : classify edges probs = .UNSUPPORTED) :
    SynDensityStat solver edges probs = none := by
  unfold SynDensityStat
  rw [h]

theorem triSolve_spec (a m b q : ℚ) (ham : a < m) (hmb : m < b)
    (hq0 : 0 < q) (hq1 : q < 1)
    (hlow : (m - a) ^ 2 ≤ q * (b - a) ^ 2)
    (hhigh : (b - m) ^ 2 ≤ (1 - q) * (b - a) ^ 2) :
    triSolve a m b q = some (triSolveMode a m b q) ∧
      triCDF a b (triSolveMode a m b q) m = q := by
  have hab : (0 : ℚ) < b - a := by linarith
  have hma : (0 : ℚ) < m - a := by linarith
  have hbm : (0 : ℚ) < b - m := by linarith
  have h1q : (0 : ℚ) < 1 - q := by linarith
  by_cases hcase : q ≤ (m - a) / (b - a)
  · have hmode : triSolveMode a m b q = a + (m - a) ^ 2 / (q * (b - a)) := by
      unfold triSolveMode
      rw [if_pos hcase]
    have hqba : (0 : ℚ) < q * (b - a) := mul_pos hq0 hab
    have hma2 : (0 : ℚ) < (m - a) ^ 2 := by positivity
    have hamo : a ≤ triSolveMode a m b q := by
      rw [hmode]
      have : (0 : ℚ) ≤ (m - a) ^ 2 / (q * (b - a)) := le_of_lt (div_pos hma2 hqba)
      linarith
    have hmole : triSolveMode a m b q ≤ b := by
      rw [hmode]
      have : (m - a) ^ 2 / (q * (b - a)) ≤ b - a := by
        rw [div_le_iff hqba]
        nlinarith
      linarith
    have hmmo : m ≤ triSolveMode a m b q := by
      rw [hmode]
      have hq' : q * (b - a) ≤ m - a := (le_div_iff hab).mp hcase
      have : m - a ≤ (m - a) ^ 2 / (q * (b - a)) := by
        rw [le_div_iff hqba]
        nlinarith
      linarith
    refine ⟨by unfold triSolve; rw [if_pos ⟨hamo, hmole⟩], ?_⟩
    unfold triCDF
    rw [if_pos hmmo, hmode]
    have hq0' : q ≠ 0 := ne_of_gt hq0
    have hab' : b - a ≠ 0 := ne_of_gt hab
    have hma' : m - a ≠ 0 := ne_of_gt hma
    rw [show a + (m - a) ^ 2 / (q * (b - a)) - a = (m - a) ^ 2 / (q * (b - a)) from by
      ring]
    rw [show (b - a) * ((m - a) ^ 2 / (q * (b - a))) = (m - a) ^ 2 / q from by
      field_simp
      ring]
    rw [div_div_eq_mul_div, mul_comm, mul_div_assoc, div_self (pow_ne_zero 2 hma'),
      mul_one]
  · have hcase' : (m - a) / (b - a) < q := not_le.mp hcase
    have hmode : triSolveMode a m b q = b - (b - m) ^ 2 / ((1 - q) * (b - a)) := by
      unfold triSolveMode
      rw [if_neg hcase]
    have hqba : (0 : ℚ) < (1 - q) * (b - a) := mul_pos h1q hab
    have hbm2 : (0 : ℚ) < (b - m) ^ 2 := by positivity
    have hmole : triSolveMode a m b q ≤ b := by
      rw [hmode]
      have : (0 : ℚ) ≤ (b - m) ^ 2 / ((1 - q) * (b - a)) := le_of_lt (div_pos hbm2 hqba)
      linarith
    have hamo : a ≤ triSolveMode a m b q := by
      rw [hmode]
      have : (b - m) ^ 2 / ((1 - q) * (b - a)) ≤ b - a := by
        rw [div_le_iff hqba]
        nlinarith
      linarith
    have hmolt : triSolveMode a m b q < m := by
      rw [hmode]
      have hq' : (1 - q) * (b - a) < b - m := by
        have hma' : m - a < q * (b - a) := (div_lt_iff hab).mp hcase'
        nlinarith
      have : b - m < (b - m) ^ 2 / ((1 - q) * (b - a)) := by
        rw [lt_div_iff hqba]
        nlinarith
      linarith
    refine ⟨by unfold triSolve; rw [if_pos ⟨hamo, hmole⟩], ?_⟩
    unfold triCDF
    rw [if_neg (not_le.mpr hmolt), hmode]
    have h1q' : (1 : ℚ) - q ≠ 0 := ne_of_gt h1q
    have hab' : b - a ≠ 0 := ne_of_gt hab
    have hbm' : b - m ≠ 0 := ne_of_gt hbm
    rw [show b - (b - (b - m) ^ 2 / ((1 - q) * (b - a))) =
        (b - m) ^ 2 / ((1 - q) * (b - a)) from by ring]
    rw [show (b - a) * ((b - m) ^ 2 / ((1 - q) * (b - a))) = (b - m) ^ 2 / (1 - q) from by
      field_simp
      ring]
    rw [div_div_eq_mul_div, mul_comm, mul_div_assoc, div_self (pow_ne_zero 2 hbm'),
      mul_one]
    ring

theorem GeneralizedBetaEst_cases (solver : BetaSolver) (edges probs : List ℚ) :
    GeneralizedBetaEst solver edges probs = [] ∨
    ∃ a b loc scale, GeneralizedBetaEst solver edges probs = [a, b, loc, scale] ∧
      0 < a ∧ 0 < b ∧ 0 < scale := by
  cases hs : solver edges probs with
  | none =>
      have hred : GeneralizedBetaEst solver edges probs = [] := by
        unfold GeneralizedBetaEst
        rw [hs]
      exact Or.inl hred
  | some tu =>
      obtain ⟨a, b, loc, scale⟩ := tu
      by_cases hv : 0 < a ∧ 0 < b ∧ 0 < scale
      · have hred : GeneralizedBetaEst solver edges probs = [a, b, loc, scale] := by
          unfold GeneralizedBetaEst
          rw [hs]
          exact if_pos hv
        exact Or.inr ⟨a, b, loc, scale, hred, hv⟩
      · have hred : GeneralizedBetaEst solver edges probs = [] := by
          unfold GeneralizedBetaEst
          rw [hs]
          exact if_neg hv
        exact Or.inl hred

theorem classify_not_contiguous (edges probs : List ℚ) (hne : posIdx probs ≠ [])
    (hnc : ¬ contiguousB (posIdx probs) = true) :
    classify edges probs = .UNSUPPORTED := by
  unfold classify
  have h1 : ¬ ((posIdx probs).isEmpty = true) := by
    simpa [List.isEmpty_iff] using hne
  rw [if_neg h1, if_pos hnc]

theorem TriangleEst_of_posIdx (edges probs : List ℚ) (i : ℕ)
    (h : posIdx probs = [i, i + 1]) :
    TriangleEst edges probs =
      (if probs.getD i 0 + probs.getD (i + 1) 0 = 0 then none
       else
         (triSolve (edges.getD i 0) (edges.getD (i + 1) 0) (edges.getD (i + 1 + 1) 0)
            (probs.getD i 0 / (probs.getD i 0 + probs.getD (i + 1) 0))).map
           (fun mo => ⟨edges.getD i 0, edges.getD (i + 1 + 1) 0, mo⟩)) := by
  unfold TriangleEst
  rw [h]
  simp

/-! ### Claim theorems -/

/-- C1: on every input, the orchestrator returns either a summary-statistics
record or the explicit "no estimate" signal `none`; it returns `none`
whenever classification is UNSUPPORTED or the dispatched estimator fails,
and every `some` result comes from a successful estimator of the classified
case fed through the matching statistics function. -/
theorem SynDensityStat_total (solver : BetaSolver) (edges probs : List ℚ) :
    (classify edges probs = .UNSUPPORTED → SynDensityStat solver edges probs = none) ∧
    (classify edges probs = .UNIFORM → UniformEst edges probs = none →
        SynDensityStat solver edges probs = none) ∧
    (classify edges probs = .TRIANGLE → TriangleEst edges probs = none →
        SynDensityStat solver edges probs = none) ∧
    (classify edges probs = .GENERALIZED_BETA →
        GeneralizedBetaEst solver edges probs = [] →
        SynDensityStat solver edges probs = none) ∧
    (∀ s, SynDensityStat solver edges probs = some s →
        (classify edges probs = .UNIFORM ∧
            ∃ u, UniformEst edges probs = some u ∧ s = UniformStats u.lb u.ub) ∨
        (classify edges probs = .TRIANGLE ∧
            ∃ t, TriangleEst edges probs = some t ∧
              s = TriangleStats t.lb t.ub t.mode) ∨
        (classify edges probs = .GENERALIZED_BETA ∧
            ∃ p1 p2 p3 p4, GeneralizedBetaEst solver edges probs = [p1, p2, p3, p4] ∧
              s = GeneralizedBetaStats p1 p2 p3 p4)) := by
  cases hcl : classify edges probs with
  | UNSUPPORTED =>
      have hS : SynDensityStat solver edges probs = none :=
        SynDensityStat_of_unsupported solver edges probs hcl
      exact ⟨fun _ => hS,
             fun hc => absurd hc (by decide),
             fun hc => absurd hc (by decide),
             fun hc => absurd hc (by decide),
             fun s hs => Option.noConfusion (hS.symm.trans hs)⟩
  | UNIFORM =>
      have hS : SynDensityStat solver edges probs =
          (UniformEst edges probs).map (fun u => UniformStats u.lb u.ub) := by
        unfold SynDensityStat
        rw [hcl]
      refine ⟨fun hc => absurd hc (by decide),
              fun _ hu => by rw [hS, hu]; rfl,
              fun hc => absurd hc (by decide),
              fun hc => absurd hc (by decide),
              fun s hs => ?_⟩
      rw [hS] at hs
      cases hu : UniformEst edges probs with
      | none =>
          rw [hu] at hs
          exact Option.noConfusion hs
      | some u =>
          rw [hu] at hs
          simp only [Option.map_some', Option.some.injEq] at hs
          exact Or.inl ⟨rfl, u, rfl, hs.symm⟩
  | TRIANGLE =>
      have hS : SynDensityStat solver edges probs =
          (TriangleEst edges probs).map (fun t => TriangleStats t.lb t.ub t.mode) := by
        unfold SynDensityStat
        rw [hcl]
      refine ⟨fun hc => absurd hc (by decide),
              fun hc => absurd hc (by decide),
              fun _ ht => by rw [hS, ht]; rfl,
              fun hc => absurd hc (by decide),
              fun s hs => ?_⟩
      rw [hS] at hs
      cases ht : TriangleEst edges probs with
      | none =>
          rw [ht] at hs
          exact Option.noConfusion hs
      | some t =>
          rw [ht] at hs
          simp only [Option.map_some', Option.some.injEq] at hs
          exact Or.inr (Or.inl ⟨rfl, t, rfl, hs.symm⟩)
  | GENERALIZED_BETA =>
      have hS : SynDensityStat solver edges probs =
          (match GeneralizedBetaEst solver edges probs with
            | [p1, p2, p3, p4] => some (GeneralizedBetaStats p1 p2 p3 p4)
            | _ => none) := by
        unfold SynDensityStat
        rw [hcl]
      refine ⟨fun hc => absurd hc (by decide),
              fun hc => absurd hc (by decide),
              fun hc => absurd hc (by decide),
              fun _ hnil => by rw [hS, hnil],
              fun s hs => ?_⟩
      rw [hS] at hs
      rcases GeneralizedBetaEst_cases solver edges probs with hg | ⟨a, b, loc, scale, hg, _⟩
      · rw [hg] at hs
        exact Option.noConfusion hs
      · rw [hg] at hs
        exact Or.inr (Or.inr ⟨rfl, a, b, loc, scale, hg, (Option.some.inj hs).symm⟩)

/-- Witness for C1: on the generalized-beta test input with a solver that
fails to converge, the orchestrator signals "no estimate". -/
theorem SynDensityStat_total_witness :
    SynDensityStat (fun _ _ => none) edgesBeta probsBeta = none :=
  (SynDensityStat_total (fun _ _ => none) edgesBeta probsBeta).2.2.2.1
    (by
      norm_num [classify, posIdx, posIdxAux, contiguousB, allEqualAt, probTol,
        edgesBeta, probsBeta])
    rfl

/-- C5: whenever a zero-probability bin lies between two positive ones, the
classifier yields UNSUPPORTED and the orchestrator returns "no estimate". -/
theorem nonadjacent_unsupported (solver : BetaSolver) (edges probs : List ℚ)
    (i j k : ℕ) (hij : i < j) (hjk : j < k) (hk : k < probs.length)
    (hpi : 0 < probs.getD i 0) (hpj : probs.getD j 0 = 0)
    (hpk : 0 < probs.getD k 0) :
    classify edges probs = .UNSUPPORTED ∧
    SynDensityStat solver edges probs = none := by
  have hi : i ∈ posIdx probs := (mem_posIdx probs i).mpr ⟨by omega, hpi⟩
  have hkm : k ∈ posIdx probs := (mem_posIdx probs k).mpr ⟨hk, hpk⟩
  have hj : j ∉ posIdx probs := by
    intro hmem
    have hlt := ((mem_posIdx probs j).mp hmem).2
    rw [hpj] at hlt
    exact lt_irrefl 0 hlt
  have hnc : ¬ contiguousB (posIdx probs) = true := by
    intro hc
    exact hj (contiguous_between (posIdx probs) hc i k j hi hkm
      (le_of_lt hij) (le_of_lt hjk))
  have hne : posIdx probs ≠ [] := by
    intro h0
    rw [h0] at hi
    exact List.not_mem_nil i hi
  have hcl := classify_not_contiguous edges probs hne hnc
  exact ⟨hcl, SynDensityStat_of_unsupported solver edges probs hcl⟩

/-- Witness for C5: the driver script's test-5 input, probabilities
`[0, 0.5, 0, 0.5, 0]`, with the zero bin at index 2 between positives at
indices 1 and 3. -/
theorem nonadjacent_unsupported_witness :
    classify edgesA probsNonadjacent = .UNSUPPORTED ∧
    SynDensityStat (fun _ _ => none) edgesA probsNonadjacent = none :=
  nonadjacent_unsupported (fun _ _ => none) edgesA probsNonadjacent 1 2 3
    (by norm_num) (by norm_num) (by norm_num [probsNonadjacent])
    (by norm_num [probsNonadjacent, List.getD_cons_succ, List.getD_cons_zero])
    (by norm_num [probsNonadjacent, List.getD_cons_succ, List.getD_cons_zero])
    (by norm_num [probsNonadjacent, List.getD_cons_succ, List.getD_cons_zero])

/-- C6: whenever the generalized beta solve fails to converge or produces
invalid (non-positive shape or scale) parameters, `GeneralizedBetaEst`
returns an empty result rather than partial parameters, and in every case
the result's length is either 0 or 4, so callers detect failure by a length
check. -/
theorem GeneralizedBetaEst_failure_empty (solver : BetaSolver) (edges probs : List ℚ) :
    (solver edges probs = none → GeneralizedBetaEst solver edges probs = []) ∧
    (∀ a b loc scale, solver edges probs = some (a, b, loc, scale) →
        ¬(0 < a ∧ 0 < b ∧ 0 < scale) → GeneralizedBetaEst solver edges probs = []) ∧
    ((GeneralizedBetaEst solver edges probs).length = 0 ∨
      (GeneralizedBetaEst solver edges probs).length = 4) := by
  refine ⟨fun hn => ?_, fun a b loc scale hs hinv => ?_, ?_⟩
  · unfold GeneralizedBetaEst
    rw [hn]
  · unfold GeneralizedBetaEst
    rw [hs]
    exact if_neg hinv
  · cases hs : solver edges probs with
    | none =>
        have hred : GeneralizedBetaEst solver edges probs = [] := by
          unfold GeneralizedBetaEst
          rw [hs]
        rw [hred]
        exact Or.inl rfl
    | some tu =>
        obtain ⟨a, b, loc, scale⟩ := tu
        by_cases hv : 0 < a ∧ 0 < b ∧ 0 < scale
        · have hred : GeneralizedBetaEst solver edges probs = [a, b, loc, scale] := by
            unfold GeneralizedBetaEst
            rw [hs]
            exact if_pos hv
          rw [hred]
          exact Or.inr rfl
        · have hred : GeneralizedBetaEst solver edges probs = [] := by
            unfold GeneralizedBetaEst
            rw [hs]
            exact if_neg hv
          rw [hred]
          exact Or.inl rfl

/-- Witness for C6: a solver that does not converge yields an empty fit, and
a solver converging to a non-positive scale yields an empty fit. -/
theorem GeneralizedBetaEst_failure_empty_witness :
    GeneralizedBetaEst (fun _ _ => none) edgesBeta probsBeta = [] ∧
    GeneralizedBetaEst (fun _ _ => some (1, 1, 0, -1)) edgesBeta probsBeta = [] :=
  ⟨(GeneralizedBetaEst_failure_empty (fun _ _ => none) edgesBeta probsBeta).1 rfl,
   (GeneralizedBetaEst_failure_empty (fun _ _ => some (1, 1, 0, -1)) edgesBeta
      probsBeta).2.1 1 1 0 (-1) rfl (by norm_num)⟩

/-- C8: each observation's estimation is a pure function of the bin edges,
the probability vector and the solver configuration: in a batch run, the
result at an observation's position equals the standalone call on that
observation, whatever observations come before or after it. -/
theorem runBatch_independent (solver : BetaSolver) (edges probs : List ℚ)
    (prior later : List (List ℚ)) :
    (runBatch solver edges (prior ++ probs :: later)).getD prior.length none =
      SynDensityStat solver edges probs := by
  unfold runBatch
  induction prior with
  | nil => rfl
  | cons x xs ih =>
      simpa only [List.cons_append, List.map_cons, List.length_cons,
        List.getD_cons_succ] using ih

/-- C9: a successful orchestrator result carries exactly the fields mean,
variance, std and iqr1090; a successful triangle fit carries lb, ub, mode; a
successful uniform fit carries lb, ub; and a successful generalized beta fit
is a sequence of length 4 holding the four parameters at positions 0-3. -/
theorem result_field_shapes (solver : BetaSolver) (edges probs : List ℚ) :
    (∀ s, SynDensityStat solver edges probs = some s →
        s = ⟨s.mean, s.variance, s.std, s.iqr1090⟩) ∧
    (∀ t, TriangleEst edges probs = some t → t = ⟨t.lb, t.ub, t.mode⟩) ∧
    (∀ u, UniformEst edges probs = some u → u = ⟨u.lb, u.ub⟩) ∧
    (GeneralizedBetaEst solver edges probs = [] ∨
      ∃ p1 p2 p3 p4, GeneralizedBetaEst solver edges probs = [p1, p2, p3, p4] ∧
        (GeneralizedBetaEst solver edges probs).length = 4 ∧
        (GeneralizedBetaEst solver edges probs).getD 0 0 = p1 ∧
        (GeneralizedBetaEst solver edges probs).getD 1 0 = p2 ∧
        (GeneralizedBetaEst solver edges probs).getD 2 0 = p3 ∧
        (GeneralizedBetaEst solver edges probs).getD 3 0 = p4) := by
  refine ⟨fun s _ => rfl, fun t _ => rfl, fun u _ => rfl, ?_⟩
  cases hs : solver edges probs with
  | none =>
      have hred : GeneralizedBetaEst solver edges probs = [] := by
        unfold GeneralizedBetaEst
        rw [hs]
      rw [hred]
      exact Or.inl rfl
  | some tu =>
      obtain ⟨a, b, loc, scale⟩ := tu
      by_cases hv : 0 < a ∧ 0 < b ∧ 0 < scale
      · have hred : GeneralizedBetaEst solver edges probs = [a, b, loc, scale] := by
          unfold GeneralizedBetaEst
          rw [hs]
          exact if_pos hv
        rw [hred]
        exact Or.inr ⟨a, b, loc, scale, rfl, rfl, rfl, rfl, rfl, rfl⟩
      · have hred : GeneralizedBetaEst solver edges probs = [] := by
          unfold GeneralizedBetaEst
          rw [hs]
          exact if_neg hv
        rw [hred]
        exact Or.inl rfl

/-- Witness for C9: the field-shape facts instantiated on the driver script's
triangle and uniform test inputs. -/
theorem result_field_shapes_witness :
    ((⟨1/5, 1/2, 11/25⟩ : TriangleFit) =
      ⟨(⟨1/5, 1/2, 11/25⟩ : TriangleFit).lb, (⟨1/5, 1/2, 11/25⟩ : TriangleFit).ub,
        (⟨1/5, 1/2, 11/25⟩ : TriangleFit).mode⟩) ∧
    ((⟨8/25, 1/2⟩ : UniformFit) =
      ⟨(⟨8/25, 1/2⟩ : UniformFit).lb, (⟨8/25, 1/2⟩ : UniformFit).ub⟩) :=
  ⟨(result_field_shapes (fun _ _ => none) edgesA probsTriangle).2.1
      ⟨1/5, 1/2, 11/25⟩ (by
        norm_num [TriangleEst, posIdx, posIdxAux, triSolve, triSolveMode, edgesA,
          probsTriangle]),
   (result_field_shapes (fun _ _ => none) edgesA probsUniform1).2.2.1
      ⟨8/25, 1/2⟩ (by norm_num [UniformEst, posIdx, posIdxAux, edgesA, probsUniform1])⟩

/-- C2: for a uniform-case input — a contiguous run of bins carrying equal
positive probability, spanning edges `a` to `b` — the uniform estimator
returns exactly lb = a and ub = b, and the uniform statistics are exactly
mean = (a+b)/2 and variance = (b-a)^2/12; in particular the driver script's
test-3 input classifies as UNIFORM with lb = 0.32, ub = 0.5 and mean = 0.41. -/
theorem UniformEst_exact (edges probs : List ℚ) (i k : ℕ) (hk : 0 < k)
    (hpos : posIdx probs = List.range' i k)
    (c : ℚ) (hc : 0 < c) (heq : ∀ r ∈ List.range' i k, probs.getD r 0 = c)
    (a b : ℚ) (ha : edges.getD i 0 = a) (hb : edges.getD (i + k) 0 = b) :
    UniformEst edges probs = some ⟨a, b⟩ ∧
    (UniformStats a b).mean = (a + b) / 2 ∧
    (UniformStats a b).variance = (b - a) ^ 2 / 12 ∧
    classify edgesA probsUniform1 = .UNIFORM ∧
    UniformEst edgesA probsUniform1 = some ⟨8/25, 1/2⟩ ∧
    (UniformStats ((8 : ℚ)/25) (1/2)).mean = 41/100 := by
  obtain ⟨k', rfl⟩ : ∃ k', k = k' + 1 := ⟨k - 1, by omega⟩
  have hrange : List.range' i (k' + 1) = i :: List.range' (i + 1) k' :=
    List.range'_succ _ _ _
  have hEq : UniformEst edges probs =
      some ⟨edges.getD i 0,
        edges.getD (((i :: List.range' (i + 1) k').getLast?.getD 0) + 1) 0⟩ :=
    UniformEst_of_posIdx edges probs i _ (hpos.trans hrange)
  have hlast : (i :: List.range' (i + 1) k').getLast?.getD 0 = i + k' := by
    rw [← hrange, range'_getLast? k' i]
    rfl
  have hb' : edges.getD (i + k' + 1) 0 = b := by
    rw [show i + k' + 1 = i + (k' + 1) from by omega]
    exact hb
  refine ⟨?_, rfl, rfl, ?_, ?_, ?_⟩
  · rw [hEq, hlast, ha, hb']
  · norm_num [classify, posIdx, posIdxAux, contiguousB, allEqualAt, probTol, edgesA,
      probsUniform1]
  · norm_num [UniformEst, posIdx, posIdxAux, edgesA, probsUniform1]
  · norm_num [UniformStats]

/-- Witness for C2: the driver script's test-3 input with the single
positive bin at index 2: a = 0.32, b = 0.5, mean 0.41. -/
theorem UniformEst_exact_witness :
    UniformEst edgesA probsUniform1 = some ⟨8/25, 1/2⟩ ∧
    (UniformStats ((8 : ℚ)/25) (1/2)).mean = (8/25 + 1/2) / 2 ∧
    (UniformStats ((8 : ℚ)/25) (1/2)).variance = (1/2 - 8/25) ^ 2 / 12 ∧
    classify edgesA probsUniform1 = .UNIFORM ∧
    UniformEst edgesA probsUniform1 = some ⟨8/25, 1/2⟩ ∧
    (UniformStats ((8 : ℚ)/25) (1/2)).mean = 41/100 :=
  UniformEst_exact edgesA probsUniform1 2 1 (by norm_num)
    (by norm_num [posIdx, posIdxAux, probsUniform1, List.range'])
    1 (by norm_num)
    (by
      intro r hr
      norm_num [List.range'] at hr
      norm_num [hr, probsUniform1, List.getD_cons_succ, List.getD_cons_zero])
    (8/25) (1/2)
    (by norm_num [edgesA, List.getD_cons_succ, List.getD_cons_zero])
    (by norm_num [edgesA, List.getD_cons_succ, List.getD_cons_zero])

/-- C3 (amended): for a triangle-case input — exactly two adjacent closed
positive bins with masses p1, p2 over edge points a < m < b — whenever the
normalized mass q = p1/(p1+p2) admits a mode inside the support (the
conditions (m-a)^2 ≤ q(b-a)^2 and (b-m)^2 ≤ (1-q)(b-a)^2), the triangle
estimator returns lb = a, ub = b and the solved mode, and the triangular CDF
at m reproduces q exactly; in particular the driver script's test-2 input
classifies as TRIANGLE with lb = 0.2, ub = 0.5 and CDF(0.32) = 0.2.  When the
solved mode falls outside the support the estimator returns no fit instead
(see the counterexample). -/
theorem TriangleEst_solvable_exact (edges probs : List ℚ) (i : ℕ)
    (hpos : posIdx probs = [i, i + 1])
    (a m b p1 p2 : ℚ)
    (ha : edges.getD i 0 = a) (hm : edges.getD (i + 1) 0 = m)
    (hb : edges.getD (i + 1 + 1) 0 = b)
    (hp1 : probs.getD i 0 = p1) (hp2 : probs.getD (i + 1) 0 = p2)
    (ham : a < m) (hmb : m < b) (hp1pos : 0 < p1) (hp2pos : 0 < p2)
    (hlow : (m - a) ^ 2 ≤ (p1 / (p1 + p2)) * (b - a) ^ 2)
    (hhigh : (b - m) ^ 2 ≤ (1 - p1 / (p1 + p2)) * (b - a) ^ 2) :
    TriangleEst edges probs =
      some ⟨a, b, triSolveMode a m b (p1 / (p1 + p2))⟩ ∧
    triCDF a b (triSolveMode a m b (p1 / (p1 + p2))) m = p1 / (p1 + p2) ∧
    classify edgesA probsTriangle = .TRIANGLE ∧
    TriangleEst edgesA probsTriangle = some ⟨1/5, 1/2, 11/25⟩ ∧
    triCDF (1/5) (1/2) (11/25) (8/25) = 1/5 := by
  have hsum : (0 : ℚ) < p1 + p2 := by linarith
  have hq0 : 0 < p1 / (p1 + p2) := div_pos hp1pos hsum
  have hq1 : p1 / (p1 + p2) < 1 := (div_lt_one hsum).mpr (by linarith)
  obtain ⟨hsolve, hcdf⟩ :=
    triSolve_spec a m b (p1 / (p1 + p2)) ham hmb hq0 hq1 hlow hhigh
  refine ⟨?_, hcdf, ?_, ?_, ?_⟩
  · rw [TriangleEst_of_posIdx edges probs i hpos, hp1, hp2, ha, hm, hb,
      if_neg (ne_of_gt hsum), hsolve]
    rfl
  · norm_num [classify, posIdx, posIdxAux, contiguousB, allEqualAt, probTol, edgesA,
      probsTriangle]
  · norm_num [TriangleEst, posIdx, posIdxAux, triSolve, triSolveMode, edgesA,
      probsTriangle]
  · norm_num [triCDF]

/-- Counterexample for C3 as stated: probabilities `[0, 0.01, 0.99, 0, 0]`
form a triangle-case input (exactly two adjacent closed positive bins, and
the classifier says TRIANGLE), yet the triangle estimator returns no fit at
all — the solved mode would fall outside the support — so it does not return
lb, ub and a mode for every triangle-case input. -/
theorem TriangleEst_universal_cex :
    classify edgesA probsTriExtreme = .TRIANGLE ∧
    TriangleEst edgesA probsTriExtreme = none := by
  constructor
  · norm_num [classify, posIdx, posIdxAux, contiguousB, allEqualAt, probTol, edgesA,
      probsTriExtreme]
  · norm_num [TriangleEst, posIdx, posIdxAux, triSolve, triSolveMode, edgesA,
      probsTriExtreme]

/-- Witness for C3 (amended): the driver script's test-2 input, bins 1 and 2
with masses 0.2 and 0.8 over edges 0.2 < 0.32 < 0.5. -/
theorem TriangleEst_solvable_exact_witness :
    TriangleEst edgesA probsTriangle =
      some ⟨1/5, 1/2, triSolveMode (1/5) (8/25) (1/2) ((1/5) / (1/5 + 4/5))⟩ ∧
    triCDF (1/5) (1/2) (triSolveMode (1/5) (8/25) (1/2) ((1/5) / (1/5 + 4/5))) (8/25) =
      (1/5) / (1/5 + 4/5) ∧
    classify edgesA probsTriangle = .TRIANGLE ∧
    TriangleEst edgesA probsTriangle = some ⟨1/5, 1/2, 11/25⟩ ∧
    triCDF (1/5) (1/2) (11/25) (8/25) = 1/5 :=
  TriangleEst_solvable_exact edgesA probsTriangle 1
    (by norm_num [posIdx, posIdxAux, probsTriangle])
    (1/5) (8/25) (1/2) (1/5) (4/5)
    (by norm_num [edgesA, List.getD_cons_succ, List.getD_cons_zero])
    (by norm_num [edgesA, List.getD_cons_succ, List.getD_cons_zero])
    (by norm_num [edgesA, List.getD_cons_succ, List.getD_cons_zero])
    (by norm_num [probsTriangle, List.getD_cons_succ, List.getD_cons_zero])
    (by norm_num [probsTriangle, List.getD_cons_succ, List.getD_cons_zero])
    (by norm_num) (by norm_num) (by norm_num) (by norm_num)
    (by norm_num) (by norm_num)

/-- C7: the statistics functions never fail on parameters actually returned
by a successful estimator, the returned variance is nonnegative in every
case, and the standard deviation equals the square root of the variance. -/
theorem stats_roundtrip_nonneg (solver : BetaSolver) (edges probs : List ℚ) :
    (∀ u, UniformEst edges probs = some u →
        0 ≤ (UniformStats u.lb u.ub).variance ∧
        (UniformStats u.lb u.ub).std =
          Real.sqrt (((UniformStats u.lb u.ub).variance : ℝ))) ∧
    (∀ t, TriangleEst edges probs = some t →
        0 ≤ (TriangleStats t.lb t.ub t.mode).variance ∧
        (TriangleStats t.lb t.ub t.mode).std =
          Real.sqrt (((TriangleStats t.lb t.ub t.mode).variance : ℝ))) ∧
    (∀ p1 p2 p3 p4, GeneralizedBetaEst solver edges probs = [p1, p2, p3, p4] →
        0 ≤ (GeneralizedBetaStats p1 p2 p3 p4).variance ∧
        (GeneralizedBetaStats p1 p2 p3 p4).std =
          Real.sqrt (((GeneralizedBetaStats p1 p2 p3 p4).variance : ℝ))) := by
  refine ⟨fun u _ => ⟨?_, rfl⟩, fun t _ => ⟨?_, rfl⟩,
          fun p1 p2 p3 p4 hg => ⟨?_, rfl⟩⟩
  · show (0 : ℚ) ≤ (u.ub - u.lb) ^ 2 / 12
    positivity
  · show (0 : ℚ) ≤
      (t.lb ^ 2 + t.ub ^ 2 + t.mode ^ 2 - t.lb * t.ub - t.lb * t.mode -
        t.ub * t.mode) / 18
    nlinarith [sq_nonneg (t.lb - t.ub), sq_nonneg (t.lb - t.mode),
      sq_nonneg (t.ub - t.mode)]
  · rcases GeneralizedBetaEst_cases solver edges probs with
      hnil | ⟨a, b, loc, scale, heq, hva, hvb, hvs⟩
    · rw [hnil] at hg
      exact List.noConfusion hg
    · rw [heq] at hg
      have hcomp : a = p1 ∧ b = p2 ∧ loc = p3 ∧ scale = p4 := by
        simpa using hg
      obtain ⟨rfl, rfl, rfl, rfl⟩ := hcomp
      show (0 : ℚ) ≤ scale ^ 2 * (a * b / ((a + b) ^ 2 * (a + b + 1)))
      have hab : (0 : ℚ) < a + b := by linarith
      have hfrac : (0 : ℚ) ≤ a * b / ((a + b) ^ 2 * (a + b + 1)) :=
        le_of_lt (div_pos (mul_pos hva hvb)
          (mul_pos (pow_pos hab 2) (by linarith)))
      exact mul_nonneg (sq_nonneg scale) hfrac

/-- Witness for C7: the round-trip facts instantiated on the uniform and
triangle test fits and on a converged generalized beta fit. -/
theorem stats_roundtrip_nonneg_witness :
    (0 ≤ (UniformStats ((8 : ℚ)/25) (1/2)).variance ∧
      (UniformStats ((8 : ℚ)/25) (1/2)).std =
        Real.sqrt (((UniformStats ((8 : ℚ)/25) (1/2)).variance : ℝ))) ∧
    (0 ≤ (TriangleStats ((1 : ℚ)/5) (1/2) (11/25)).variance ∧
      (TriangleStats ((1 : ℚ)/5) (1/2) (11/25)).std =
        Real.sqrt (((TriangleStats ((1 : ℚ)/5) (1/2) (11/25)).variance : ℝ))) ∧
    (0 ≤ (GeneralizedBetaStats 1 1 0 1).variance ∧
      (GeneralizedBetaStats 1 1 0 1).std =
        Real.sqrt (((GeneralizedBetaStats 1 1 0 1).variance : ℝ))) :=
  ⟨(stats_roundtrip_nonneg (fun _ _ => none) edgesA probsUniform1).1
      ⟨8/25, 1/2⟩ (by norm_num [UniformEst, posIdx, posIdxAux, edgesA, probsUniform1]),
   (stats_roundtrip_nonneg (fun _ _ => none) edgesA probsTriangle).2.1
      ⟨1/5, 1/2, 11/25⟩ (by
        norm_num [TriangleEst, posIdx, posIdxAux, triSolve, triSolveMode, edgesA,
          probsTriangle]),
   (stats_roundtrip_nonneg (fun _ _ => some (1, 1, 0, 1)) edgesA probsUniform1).2.2
      1 1 0 1 (by norm_num [GeneralizedBetaEst])⟩

/-- C10: on the nonadjacent equal-probability input of test 5 — declared
unsupported by the classifier — `UniformEst` still returns a fit with lb and
ub (spanning from the first to the last positive bin) on which `UniformStats`
is defined, rather than rejecting the input. -/
theorem UniformEst_nonadjacent_lenient :
    classify edgesA probsNonadjacent = .UNSUPPORTED ∧
    UniformEst edgesA probsNonadjacent = some ⟨1/5, 1⟩ ∧
    (UniformStats (1/5) 1).mean = (1/5 + 1) / 2 ∧
    (UniformStats (1/5) 1).variance = (1 - 1/5) ^ 2 / 12 :=
  ⟨by
    norm_num [classify, posIdx, posIdxAux, contiguousB, allEqualAt, probTol, edgesA,
      probsNonadjacent],
   by norm_num [UniformEst, posIdx, posIdxAux, edgesA, probsNonadjacent],
   rfl, rfl⟩

end DensityEst
